import Mathlib

/-!
Verification of the FFI result-passing contract of vexy-svgo, as exercised by
the Python integration example (`examples/python-integration/main.py`).

The development has three layers:
1. an embedding of the ctypes structure declaration `VexyResult` (source
   lines 11-17);
2. an embedding of the example script itself as a small Python AST with a
   name-resolution semantics (source lines 1-28);
3. a model of the native optimization engine reachable through
   `vexy_svgo_optimize_default`, whose code is not part of this repository;
   each such definition is marked `Modelled from the spec:`.
Bytes are modelled as natural numbers (`Byte := Nat`).
-/

namespace VexySvgo

abbrev Byte := Nat

/-! ### Layer 1: the ctypes structure declaration (main.py lines 11-17) -/

/-- The ctypes field types appearing in the example script. -/
inductive CType where
  | c_int : CType
  | c_char_p : CType
  | c_size_t : CType
  | pointerTo : String → CType
deriving DecidableEq

/-- Bit width of a ctypes type given the platform pointer width:
`c_int` is a 32-bit C int, `c_size_t` and the pointer types are
platform-width. -/
def CType.bitWidth (ptrBits : Nat) : CType → Nat
  | .c_int => 32
  | .c_char_p => ptrBits
  | .c_size_t => ptrBits
  | .pointerTo _ => ptrBits

/-- Whether a ctypes type is a signed integer type. -/
def CType.isSigned : CType → Bool
  | .c_int => true
  | _ => false

/-- Whether a ctypes type is a pointer type. -/
def CType.isPointer : CType → Bool
  | .c_char_p => true
  | .pointerTo _ => true
  | _ => false

/-- The `_fields_` list of the ctypes structure `VexyResult`,
transcribed from main.py lines 12-17 in source order. -/
def vexyResultFields : List (String × CType) :=
  [("error_code", .c_int),
   ("data", .c_char_p),
   ("data_length", .c_size_t),
   ("original_size", .c_size_t),
   ("optimized_size", .c_size_t),
   ("error_message", .c_char_p)]

/-! ### Layer 2: the example script as a Python AST (main.py lines 1-28) -/

/-- Python expressions, restricted to the forms occurring in main.py. -/
inductive PyExpr where
  | name : String → PyExpr
  | attr : PyExpr → String → PyExpr
  | call0 : PyExpr → PyExpr
  | call1 : PyExpr → PyExpr → PyExpr
  | list1 : PyExpr → PyExpr
  | strLit : PyExpr
  | bytesLit : List Byte → PyExpr
  | intLit : Nat → PyExpr
  | eqTest : PyExpr → PyExpr → PyExpr
deriving DecidableEq

/-- Python statements, restricted to the forms occurring in main.py.
Each carries its source line number.  The `ifElse` form of the script has a
single expression statement in each branch, so it is embedded that way. -/
inductive PyStmt where
  | importMod : Nat → String → PyStmt
  | assign : Nat → String → PyExpr → PyStmt
  | setAttr : Nat → PyExpr → String → PyExpr → PyStmt
  | classDef : Nat → String → List (String × CType) → PyStmt
  | exprStmt : Nat → PyExpr → PyStmt
  | ifElse : Nat → PyExpr → Nat → PyExpr → Nat → PyExpr → PyStmt
deriving DecidableEq

open PyExpr in
/-- The statements of main.py, in source order with their line numbers. -/
def mainScript : List PyStmt :=
  [ .importMod 1 "ctypes",
    .assign 4 "lib" (call1 (attr (name "ctypes") "CDLL") strLit),
    .setAttr 7 (attr (name "lib") "vexy_svgo_optimize_default") "argtypes"
      (list1 (attr (name "ctypes") "c_char_p")),
    .setAttr 8 (attr (name "lib") "vexy_svgo_optimize_default") "restype"
      (call1 (attr (name "ctypes") "POINTER") (name "VexyResult")),
    .setAttr 9 (attr (name "lib") "vexy_svgo_free_result") "argtypes"
      (list1 (call1 (attr (name "ctypes") "POINTER") (name "VexyResult"))),
    .classDef 11 "VexyResult" vexyResultFields,
    .assign 19 "svg" (bytesLit
      [60, 115, 118, 103, 62, 60, 103, 62, 60, 114, 101, 99, 116, 32, 119,
       105, 100, 116, 104, 61, 34, 49, 48, 48, 34, 32, 104, 101, 105, 103,
       104, 116, 61, 34, 49, 48, 48, 34, 47, 62, 60, 47, 103, 62, 60, 47,
       115, 118, 103, 62]),
    .assign 21 "result"
      (call1 (attr (name "lib") "vexy_svgo_optimize_default") (name "svg")),
    .ifElse 23
      (eqTest (attr (attr (name "result") "contents") "error_code") (intLit 0))
      24 (call1 (name "print")
            (call0 (attr (attr (attr (name "result") "contents") "data") "decode")))
      26 (call1 (name "print")
            (call0 (attr (attr (attr (name "result") "contents") "error_message")
              "decode"))),
    .exprStmt 28
      (call1 (attr (name "lib") "vexy_svgo_free_result") (name "result")) ]

/-- First name referenced by an expression, in Python evaluation order,
that is not bound in the environment; `none` when every referenced name is
bound.  Evaluating the expression raises `NameError` on that name. -/
def firstUndef (env : List String) : PyExpr → Option String
  | .name s => if s ∈ env then none else some s
  | .attr e _ => firstUndef env e
  | .call0 f => firstUndef env f
  | .call1 f a =>
    match firstUndef env f with
    | some n => some n
    | none => firstUndef env a
  | .list1 e => firstUndef env e
  | .strLit => none
  | .bytesLit _ => none
  | .intLit _ => none
  | .eqTest a b =>
    match firstUndef env a with
    | some n => some n
    | none => firstUndef env b

/-- FFI functions invoked while evaluating an expression, in evaluation
order: calls whose callee is an attribute of the name `lib`. -/
def libCalls : PyExpr → List String
  | .name _ => []
  | .attr e _ => libCalls e
  | .call0 f =>
    libCalls f ++ (match f with
      | .attr (.name "lib") fn => [fn]
      | _ => [])
  | .call1 f a =>
    libCalls f ++ libCalls a ++ (match f with
      | .attr (.name "lib") fn => [fn]
      | _ => [])
  | .list1 e => libCalls e
  | .strLit => []
  | .bytesLit _ => []
  | .intLit _ => []
  | .eqTest a b => libCalls a ++ libCalls b

/-- Attributes of the name `lib` referenced anywhere in an expression: the
FFI symbols of the native library that the script touches. -/
def libAttrRefs : PyExpr → List String
  | .name _ => []
  | .attr (.name s) a => if s = "lib" then [a] else []
  | .attr e _ => libAttrRefs e
  | .call0 f => libAttrRefs f
  | .call1 f a => libAttrRefs f ++ libAttrRefs a
  | .list1 e => libAttrRefs e
  | .strLit => []
  | .bytesLit _ => []
  | .intLit _ => []
  | .eqTest a b => libAttrRefs a ++ libAttrRefs b

/-- Attributes of `lib` referenced anywhere in a statement, target side
included. -/
def libAttrRefsStmt : PyStmt → List String
  | .importMod _ _ => []
  | .assign _ _ e => libAttrRefs e
  | .setAttr _ t _ e => libAttrRefs t ++ libAttrRefs e
  | .classDef _ _ _ => []
  | .exprStmt _ e => libAttrRefs e
  | .ifElse _ c _ t _ e => libAttrRefs c ++ libAttrRefs t ++ libAttrRefs e

/-- All FFI symbols of the native library referenced by a script. -/
def libAttrRefsScript (stmts : List PyStmt) : List String :=
  (stmts.map libAttrRefsStmt).flatten

/-- Execution state of the script: either still running, with the bound
global names and the FFI calls made so far, or aborted by a `NameError`
raised at a given line on a given missing name. -/
inductive RunState where
  | running : List String → List String → RunState
  | raisedName : Nat → String → List String → RunState
deriving DecidableEq

/-- One step of script execution.  Library loading (`ctypes.CDLL`) is
modelled as succeeding; the `oracle` decides which branch an `if` takes
(the FFI result is not modelled at this layer).  An assignment evaluates
its right-hand side before binding the target, as Python does. -/
def execStmt (oracle : Nat → Bool) (st : RunState) : PyStmt → RunState :=
  match st with
  | .raisedName l n cs => fun _ => .raisedName l n cs
  | .running env cs => fun s =>
    match s with
    | .importMod _ m => .running (m :: env) cs
    | .assign line x e =>
      match firstUndef env e with
      | some n => .raisedName line n cs
      | none => .running (x :: env) (cs ++ libCalls e)
    | .setAttr line t _ e =>
      match firstUndef env e with
      | some n => .raisedName line n cs
      | none =>
        match firstUndef env t with
        | some n => .raisedName line n (cs ++ libCalls e)
        | none => .running env (cs ++ libCalls e ++ libCalls t)
    | .classDef _ x _ => .running (x :: env) cs
    | .exprStmt line e =>
      match firstUndef env e with
      | some n => .raisedName line n cs
      | none => .running env (cs ++ libCalls e)
    | .ifElse line c tl te el ee =>
      match firstUndef env c with
      | some n => .raisedName line n cs
      | none =>
        if oracle line then
          match firstUndef env te with
          | some n => .raisedName tl n (cs ++ libCalls c)
          | none => .running env (cs ++ libCalls c ++ libCalls te)
        else
          match firstUndef env ee with
          | some n => .raisedName el n (cs ++ libCalls c)
          | none => .running env (cs ++ libCalls c ++ libCalls ee)

/-- Run a script from the initial environment (builtin `print` bound,
no FFI calls made). -/
def runScript (oracle : Nat → Bool) (stmts : List PyStmt) : RunState :=
  stmts.foldl (execStmt oracle) (.running ["print"] [])

/-! ### Layer 3: the native engine behind the boundary -/

/-- Modelled from the spec: the boundary record `OperationResult` produced
by the engine (the Rust FFI side is not part of this repository).  The two
pointer fields are `Option`s: `none` models a null pointer. -/
structure OperationResult where
  error_code : Int
  data : Option (List Byte)
  data_length : Nat
  original_size : Nat
  optimized_size : Nat
  error_message : Option (List Byte)
deriving DecidableEq

/-- Modelled from the spec: raw lexical items of the input document, as cut
by the missing engine's parser front end: a tag (the bytes between `<` and
`>`) or a single text byte. -/
inductive RawTok where
  | tag : List Byte → RawTok
  | chr : Byte → RawTok
deriving DecidableEq

/-- Modelled from the spec: classified markup tokens of the missing engine:
an opening tag with its full content (name and attributes), a closing tag
with its name, a self-closing tag with its content, or a text byte. -/
inductive Tok where
  | openT : List Byte → Tok
  | closeT : List Byte → Tok
  | selfT : List Byte → Tok
  | chr : Byte → Tok
deriving DecidableEq

/-- Modelled from the spec: the lexer of the missing engine.  Outside a tag
(`acc = none`) a `<` opens a tag and a stray `>` is malformed; inside a tag
(`acc = some bytes`, accumulated in reverse) a `>` closes it and a nested
`<` is malformed.  Input ending inside a tag is an unterminated tag and is
malformed. -/
def lexA : List Byte → Option (List Byte) → Option (List RawTok)
  | [], none => some []
  | [], some _ => none
  | b :: bs, none =>
    if b = 60 then lexA bs (some [])
    else if b = 62 then none
    else (lexA bs none).map (.chr b :: ·)
  | b :: bs, some acc =>
    if b = 62 then (lexA bs none).map (.tag acc.reverse :: ·)
    else if b = 60 then none
    else lexA bs (some (b :: acc))

/-- Modelled from the spec: classification of a raw token by the missing
engine.  A tag whose content starts with `/` is a closing tag, one whose
content ends with `/` is self-closing, anything else opens an element; an
empty tag or an empty closing-tag name is malformed. -/
def classify : RawTok → Option Tok
  | .chr b => some (.chr b)
  | .tag c =>
    if c = [] then none
    else if c.head? = some 47 then
      if c.drop 1 = [] then none else some (.closeT (c.drop 1))
    else if c.getLast? = some 47 then some (.selfT c.dropLast)
    else some (.openT c)

/-- Modelled from the spec: classify every raw token, failing if any one
fails. -/
def classifyAll : List RawTok → Option (List Tok)
  | [] => some []
  | r :: rs =>
    match classify r, classifyAll rs with
    | some t, some ts => some (t :: ts)
    | _, _ => none

/-- Modelled from the spec: the full tokenizer of the missing engine. -/
def tokenize (input : List Byte) : Option (List Tok) :=
  (lexA input none).bind classifyAll

/-- Modelled from the spec: element name of a tag content: the bytes before
the first space. -/
def tagName (c : List Byte) : List Byte :=
  c.takeWhile (fun b => b ≠ 32)

/-- Modelled from the spec: the well-formedness check of the missing
engine: every closing tag matches the innermost open element, and every
element is closed. -/
def balanced : List Tok → List (List Byte) → Bool
  | [], [] => true
  | [], _ :: _ => false
  | .openT c :: ts, st => balanced ts (tagName c :: st)
  | .closeT n :: ts, m :: st => decide (n = m) && balanced ts st
  | .closeT _ :: _, [] => false
  | .selfT _ :: ts, st => balanced ts st
  | .chr _ :: ts, st => balanced ts st

/-- Modelled from the spec: the missing engine accepts only documents whose
first token is an `svg` element (byte name `[115, 118, 103]`). -/
def svgRoot : List Tok → Bool
  | .openT c :: _ => decide (tagName c = [115, 118, 103])
  | .selfT c :: _ => decide (tagName c = [115, 118, 103])
  | _ => false

/-- Modelled from the spec: the validating parser of the missing engine:
tokenize, then require balance and an `svg` root.  `none` is a malformed
input (unterminated tag, stray bracket, empty input, unbalanced or
non-svg document). -/
def parseDoc (input : List Byte) : Option (List Tok) :=
  match tokenize input with
  | none => none
  | some ts => if balanced ts [] && svgRoot ts then some ts else none

/-- Modelled from the spec: whether the engine accepts the input. -/
def isValidInput (input : List Byte) : Bool :=
  (parseDoc input).isSome

/-- Modelled from the spec: the optimization pass of the missing engine,
removing redundant group elements: every `<g>` opening tag with no
attributes is dropped together with its matching closing tag.  The boolean
stack records, for each open element, whether its opening tag was
dropped. -/
def stripGroups : List Tok → List Bool → List Tok
  | [], _ => []
  | .openT c :: ts, st =>
    if c = [103] then stripGroups ts (true :: st)
    else .openT c :: stripGroups ts (false :: st)
  | .closeT n :: ts, st =>
    match st with
    | true :: st' => stripGroups ts st'
    | false :: st' => .closeT n :: stripGroups ts st'
    | [] => .closeT n :: stripGroups ts []
  | .selfT c :: ts, st => .selfT c :: stripGroups ts st
  | .chr b :: ts, st => .chr b :: stripGroups ts st

/-- Modelled from the spec: serialization of one token back to bytes. -/
def serTok : Tok → List Byte
  | .openT c => 60 :: c ++ [62]
  | .closeT n => 60 :: 47 :: n ++ [62]
  | .selfT c => 60 :: c ++ [47, 62]
  | .chr b => [b]

/-- Modelled from the spec: serialization of a token stream back to
bytes. -/
def serialize (ts : List Tok) : List Byte :=
  (ts.map serTok).flatten

/-- Modelled from the spec: the error message bytes for a rejected input,
the ASCII of "invalid input document". -/
def invalidInputMsg : List Byte :=
  [105, 110, 118, 97, 108, 105, 100, 32, 105, 110, 112, 117, 116, 32, 100,
   111, 99, 117, 109, 101, 110, 116]

/-- Modelled from the spec: the producing operation `optimize_default` of
the missing engine.  On a valid input it returns a success record whose
`data` is the optimized document, with `data_length` and `optimized_size`
its byte length and `original_size` the input byte length; on a malformed
input it returns error code 1 with a non-empty message, null `data`, the
input length as `original_size` and zero `optimized_size`. -/
def vexy_svgo_optimize_default (input : List Byte) : OperationResult :=
  match parseDoc input with
  | some ts =>
    let out := serialize (stripGroups ts [])
    { error_code := 0
      data := some out
      data_length := out.length
      original_size := input.length
      optimized_size := out.length
      error_message := none }
  | none =>
    { error_code := 1
      data := none
      data_length := 0
      original_size := input.length
      optimized_size := 0
      error_message := some invalidInputMsg }

/-- What main.py line 24 reads through the `c_char_p` field `data`
(lines 13-14): ctypes converts a `c_char_p` to the bytes up to the first
NUL, so `data_length` plays no part in the decode. -/
def cCharP_read (bs : List Byte) : List Byte :=
  bs.takeWhile (fun b => b ≠ 0)

/-- The payload the example caller actually obtains from a result record:
the null-terminated read of `data` (a null pointer reads as empty). -/
def callerDecode (r : OperationResult) : List Byte :=
  cCharP_read (r.data.getD [])

/-- The 50-byte input document of main.py line 19,
`<svg><g><rect width="100" height="100"/></g></svg>`. -/
def svgExampleBytes : List Byte :=
  [60, 115, 118, 103, 62, 60, 103, 62, 60, 114, 101, 99, 116, 32, 119, 105,
   100, 116, 104, 61, 34, 49, 48, 48, 34, 32, 104, 101, 105, 103, 104, 116,
   61, 34, 49, 48, 48, 34, 47, 62, 60, 47, 103, 62, 60, 47, 115, 118, 103,
   62]

/-- The expected optimized output,
`<svg><rect width="100" height="100"/></svg>` (43 bytes). -/
def svgOptimizedBytes : List Byte :=
  [60, 115, 118, 103, 62, 60, 114, 101, 99, 116, 32, 119, 105, 100, 116,
   104, 61, 34, 49, 48, 48, 34, 32, 104, 101, 105, 103, 104, 116, 61, 34,
   49, 48, 48, 34, 47, 62, 60, 47, 115, 118, 103, 62]

/-- An `svg` document with an embedded NUL byte in its text content,
`<svg>` ++ `\x00A` ++ `</svg>`; the engine accepts it and returns it
unchanged. -/
def nulPayloadInput : List Byte :=
  [60, 115, 118, 103, 62, 0, 65, 60, 47, 115, 118, 103, 62]

/-! ### Shared definitions and lemmas for the round-trip development -/

/-- Bytes that may appear inside a tag content or as a text byte: neither
`<` (60) nor `>` (62). -/
def cleanBytes (c : List Byte) : Bool :=
  c.all (fun b => b ≠ 60 && b ≠ 62)

/-- Well-formedness of a raw token as produced by the lexer. -/
def wfRaw : RawTok → Bool
  | .tag c => cleanBytes c
  | .chr b => b ≠ 60 && b ≠ 62

/-- Well-formedness of a classified token as produced by the parser: the
shape invariants that make serialization left-invertible. -/
def wfTok : Tok → Bool
  | .openT c => !c.isEmpty && !(c.head? = some 47 : Bool) &&
      !(c.getLast? = some 47 : Bool) && cleanBytes c
  | .closeT n => !n.isEmpty && cleanBytes n
  | .selfT c => !c.isEmpty && !(c.head? = some 47 : Bool) && cleanBytes c
  | .chr b => b ≠ 60 && b ≠ 62

/-- Well-formedness of a token stream. -/
def wfToks (ts : List Tok) : Bool :=
  ts.all wfTok

/-- The raw token a classified token serializes through. -/
def rawOf : Tok → RawTok
  | .openT c => .tag c
  | .closeT n => .tag (47 :: n)
  | .selfT c => .tag (c ++ [47])
  | .chr b => .chr b

/-- The name stack remaining after dropping the entries marked `true` in
the boolean stack of `stripGroups`. -/
def filterFalse : List Bool → List (List Byte) → List (List Byte)
  | true :: bs, _ :: st => filterFalse bs st
  | false :: bs, m :: st => m :: filterFalse bs st
  | _, st => st

theorem stripGroups_sublist : ∀ (ts : List Tok) (bs : List Bool),
    List.Sublist (stripGroups ts bs) ts := by
  intro ts
  induction ts with
  | nil => intro bs; simp [stripGroups]
  | cons t ts ih =>
    intro bs
    cases t with
    | openT c =>
      by_cases hc : c = [103]
      · simpa [stripGroups, hc] using (ih (true :: bs)).cons _
      · simpa [stripGroups, hc] using (ih (false :: bs)).cons₂ (Tok.openT c)
    | closeT n =>
      match bs with
      | true :: bs' => simpa [stripGroups] using (ih bs').cons _
      | false :: bs' => simpa [stripGroups] using (ih bs').cons₂ (Tok.closeT n)
      | [] => simpa [stripGroups] using (ih []).cons₂ (Tok.closeT n)
    | selfT c => simpa [stripGroups] using (ih bs).cons₂ (Tok.selfT c)
    | chr b => simpa [stripGroups] using (ih bs).cons₂ (Tok.chr b)

theorem wfToks_stripGroups {ts : List Tok} (bs : List Bool)
    (h : wfToks ts = true) : wfToks (stripGroups ts bs) = true := by
  rw [wfToks, List.all_eq_true] at h ⊢
  exact fun t ht => h t ((stripGroups_sublist ts bs).subset ht)

theorem lexA_wf : ∀ (bs : List Byte) (oacc : Option (List Byte))
    (rts : List RawTok),
    (∀ acc, oacc = some acc → cleanBytes acc = true) →
    lexA bs oacc = some rts → rts.all wfRaw = true := by
  intro bs
  induction bs with
  | nil =>
    intro oacc rts hacc h
    cases oacc with
    | none =>
      simp only [lexA, Option.some.injEq] at h
      rw [← h]; rfl
    | some acc => simp [lexA] at h
  | cons b bs ih =>
    intro oacc rts hacc h
    cases oacc with
    | none =>
      by_cases h60 : b = 60
      · rw [h60] at h; simp only [lexA, if_pos rfl] at h
        exact ih (some []) rts (by intro acc hacc'; cases hacc'; rfl) h
      · by_cases h62 : b = 62
        · rw [h62] at h; simp [lexA, h60] at h
        · simp only [lexA, if_neg h60, if_neg h62] at h
          obtain ⟨rts', hlex, hmap⟩ := Option.map_eq_some'.mp h
          rw [← hmap, List.all_cons, Bool.and_eq_true]
          refine ⟨by simp [wfRaw, h60, h62], ?_⟩
          exact ih none rts' (by intro acc h'; cases h') hlex
    | some acc =>
      by_cases h62 : b = 62
      · rw [h62] at h; simp only [lexA, if_pos rfl] at h
        obtain ⟨rts', hlex, hmap⟩ := Option.map_eq_some'.mp h
        rw [← hmap, List.all_cons, Bool.and_eq_true]
        constructor
        · show cleanBytes acc.reverse = true
          have hc := hacc acc rfl
          rw [cleanBytes] at hc ⊢
          rw [List.all_reverse]
          exact hc
        · exact ih none rts' (by intro acc h'; cases h') hlex
      · by_cases h60 : b = 60
        · rw [h60] at h; simp [lexA, h62] at h
        · simp only [lexA, if_neg h62, if_neg h60] at h
          refine ih (some (b :: acc)) rts ?_ h
          intro acc' hacc'
          cases hacc'
          have hc := hacc acc rfl
          rw [cleanBytes, List.all_cons, Bool.and_eq_true]
          exact ⟨by simp [h60, h62], hc⟩

theorem cleanBytes_sublist {c d : List Byte} (hs : List.Sublist d c)
    (h : cleanBytes c = true) : cleanBytes d = true := by
  rw [cleanBytes, List.all_eq_true] at h ⊢
  exact fun x hx => h x (hs.subset hx)

theorem classify_wf {r : RawTok} {t : Tok} (hr : wfRaw r = true)
    (h : classify r = some t) : wfTok t = true := by
  cases r with
  | chr b =>
    simp only [classify, Option.some.injEq] at h
    rw [← h]
    exact hr
  | tag c =>
    have hclean : cleanBytes c = true := hr
    simp only [classify] at h
    by_cases hc : c = []
    · rw [if_pos hc] at h; cases h
    rw [if_neg hc] at h
    by_cases h47 : c.head? = some 47
    · rw [if_pos h47] at h
      by_cases hn : c.drop 1 = []
      · rw [if_pos hn] at h; cases h
      rw [if_neg hn] at h
      cases h
      have hcl : cleanBytes (c.drop 1) = true :=
        cleanBytes_sublist (List.drop_sublist 1 c) hclean
      rw [List.drop_one] at hn hcl
      simp [wfTok, hn, hcl]
    rw [if_neg h47] at h
    by_cases hL : c.getLast? = some 47
    · rw [if_pos hL] at h
      cases h
      have hcl : cleanBytes c.dropLast = true :=
        cleanBytes_sublist (List.dropLast_sublist c) hclean
      rcases c with _ | ⟨x, c'⟩
      · exact absurd rfl hc
      rcases c' with _ | ⟨y, r⟩
      · exfalso
        apply h47
        have hx : x = 47 := by simpa using hL
        simp [hx]
      · have hx : x ≠ 47 := by
          intro hx
          exact h47 (by simp [hx])
        have hd : (x :: y :: r).dropLast = x :: (y :: r).dropLast := by
          simp
        rw [hd] at hcl ⊢
        simp [wfTok, hx, hcl]
    rw [if_neg hL] at h
    cases h
    simp [wfTok, hc, h47, hL, hclean]

theorem classifyAll_wf : ∀ {rts : List RawTok} {ts : List Tok},
    rts.all wfRaw = true → classifyAll rts = some ts → wfToks ts = true := by
  intro rts
  induction rts with
  | nil =>
    intro ts _ h
    simp only [classifyAll, Option.some.injEq] at h
    rw [← h]; rfl
  | cons r rs ih =>
    intro ts hall h
    rw [List.all_cons, Bool.and_eq_true] at hall
    cases hcr : classify r with
    | none => simp [classifyAll, hcr] at h
    | some t =>
      cases hca : classifyAll rs with
      | none => simp [classifyAll, hcr, hca] at h
      | some ts' =>
        simp only [classifyAll, hcr, hca, Option.some.injEq] at h
        rw [← h, wfToks, List.all_cons, Bool.and_eq_true]
        exact ⟨classify_wf hall.1 hcr, ih hall.2 hca⟩

theorem tokenize_wf {input : List Byte} {ts : List Tok}
    (h : tokenize input = some ts) : wfToks ts = true := by
  rw [tokenize] at h
  obtain ⟨rts, hlex, hca⟩ := Option.bind_eq_some.mp h
  exact classifyAll_wf (lexA_wf input none rts (by intro acc h'; cases h') hlex) hca

theorem parseDoc_props {input : List Byte} {ts : List Tok}
    (h : parseDoc input = some ts) :
    tokenize input = some ts ∧ balanced ts [] = true ∧ svgRoot ts = true := by
  rw [parseDoc] at h
  split at h
  · cases h
  next ts' heq =>
    split at h
    next hb =>
      cases h
      rw [Bool.and_eq_true] at hb
      exact ⟨heq, hb.1, hb.2⟩
    next hb => cases h

theorem lexA_text (c : List Byte) : ∀ (acc bs : List Byte),
    cleanBytes c = true →
    lexA (c ++ 62 :: bs) (some acc) =
      (lexA bs none).map (.tag (acc.reverse ++ c) :: ·) := by
  induction c with
  | nil =>
    intro acc bs _
    simp [lexA]
  | cons x c ih =>
    intro acc bs hcl
    rw [cleanBytes, List.all_cons, Bool.and_eq_true] at hcl
    obtain ⟨hx, hcl⟩ := hcl
    have hx' : x ≠ 60 ∧ x ≠ 62 := by simpa using hx
    show lexA (x :: (c ++ 62 :: bs)) (some acc) = _
    simp only [lexA, if_neg hx'.2, if_neg hx'.1]
    rw [ih (x :: acc) bs hcl]
    simp [List.append_assoc]

theorem lexA_serTok {t : Tok} (bs : List Byte) (ht : wfTok t = true) :
    lexA (serTok t ++ bs) none = (lexA bs none).map (rawOf t :: ·) := by
  cases t with
  | openT c =>
    simp only [wfTok, Bool.and_eq_true] at ht
    obtain ⟨⟨⟨h1, h2⟩, h3⟩, hcl⟩ := ht
    have hser : serTok (.openT c) ++ bs = 60 :: (c ++ 62 :: bs) := by
      simp [serTok]
    rw [hser]
    simp only [lexA, if_pos rfl]
    rw [lexA_text c [] bs hcl]
    simp [rawOf]
  | closeT n =>
    simp only [wfTok, Bool.and_eq_true] at ht
    obtain ⟨h1, hcl⟩ := ht
    have hser : serTok (.closeT n) ++ bs = 60 :: 47 :: (n ++ 62 :: bs) := by
      simp [serTok]
    rw [hser]
    simp only [lexA, if_pos rfl]
    have h47 : (47 : Byte) ≠ 62 := by decide
    have h47' : (47 : Byte) ≠ 60 := by decide
    simp only [lexA, if_neg h47, if_neg h47']
    rw [lexA_text n [47] bs hcl]
    simp [rawOf]
  | selfT c =>
    simp only [wfTok, Bool.and_eq_true] at ht
    obtain ⟨⟨h1, h2⟩, hcl⟩ := ht
    have hser : serTok (.selfT c) ++ bs = 60 :: ((c ++ [47]) ++ 62 :: bs) := by
      simp [serTok]
    rw [hser]
    simp only [lexA, if_pos rfl]
    have hcl' : cleanBytes (c ++ [47]) = true := by
      rw [cleanBytes, List.all_append, Bool.and_eq_true]
      exact ⟨hcl, by decide⟩
    rw [lexA_text (c ++ [47]) [] bs hcl']
    simp [rawOf]
  | chr b =>
    simp only [wfTok, Bool.and_eq_true] at ht
    have h60 : b ≠ 60 := by simpa using ht.1
    have h62 : b ≠ 62 := by simpa using ht.2
    show lexA (b :: bs) none = _
    simp only [lexA, if_neg h60, if_neg h62, rawOf]

theorem classify_rawOf {t : Tok} (ht : wfTok t = true) :
    classify (rawOf t) = some t := by
  cases t with
  | openT c =>
    simp only [wfTok, Bool.and_eq_true] at ht
    obtain ⟨⟨⟨h1, h2⟩, h3⟩, _⟩ := ht
    have hc : ¬c = [] := by simpa using h1
    have h47 : ¬c.head? = some 47 := by simpa using h2
    have hL : ¬c.getLast? = some 47 := by simpa using h3
    simp [classify, rawOf, hc, h47, hL]
  | closeT n =>
    simp only [wfTok, Bool.and_eq_true] at ht
    obtain ⟨h1, _⟩ := ht
    have hn : ¬n = [] := by simpa using h1
    simp [classify, rawOf, hn]
  | selfT c =>
    simp only [wfTok, Bool.and_eq_true] at ht
    obtain ⟨⟨h1, h2⟩, _⟩ := ht
    have hc : ¬c = [] := by simpa using h1
    have h47 : ¬c.head? = some 47 := by simpa using h2
    rcases c with _ | ⟨x, c'⟩
    · exact absurd rfl hc
    have hx : ¬x = 47 := by simpa using h47
    have hL : (x :: (c' ++ [47])).getLast? = some 47 := by
      rw [← List.cons_append]
      exact List.getLast?_concat _
    have hdl : (x :: (c' ++ [47])).dropLast = x :: c' := by
      rw [← List.cons_append]
      exact List.dropLast_concat
    simp [classify, rawOf, hx, hL, hdl]
  | chr b => rfl

theorem tokenize_serialize : ∀ {ts : List Tok}, wfToks ts = true →
    tokenize (serialize ts) = some ts := by
  intro ts
  induction ts with
  | nil => intro _; rfl
  | cons t ts ih =>
    intro h
    rw [wfToks, List.all_cons, Bool.and_eq_true] at h
    obtain ⟨ht, hts⟩ := h
    have ihts := ih hts
    rw [tokenize] at ihts ⊢
    obtain ⟨rts, hlex, hca⟩ := Option.bind_eq_some.mp ihts
    have hser : serialize (t :: ts) = serTok t ++ serialize ts := by
      simp [serialize]
    rw [hser, lexA_serTok _ ht, hlex]
    simp [classifyAll, classify_rawOf ht, hca]

theorem balanced_stripGroups : ∀ (ts : List Tok) (bs : List Bool)
    (st : List (List Byte)), bs.length = st.length →
    balanced ts st = true →
    balanced (stripGroups ts bs) (filterFalse bs st) = true := by
  intro ts
  induction ts with
  | nil =>
    intro bs st hlen hb
    cases st with
    | nil =>
      rw [List.length_nil, List.length_eq_zero] at hlen
      rw [hlen]
      exact hb
    | cons m st' => simp [balanced] at hb
  | cons t ts ih =>
    intro bs st hlen hb
    cases t with
    | openT c =>
      rw [show balanced (Tok.openT c :: ts) st = balanced ts (tagName c :: st)
        from rfl] at hb
      by_cases hc : c = [103]
      · rw [show stripGroups (Tok.openT c :: ts) bs =
          stripGroups ts (true :: bs) from by simp [stripGroups, hc]]
        have := ih (true :: bs) (tagName c :: st) (by simp [hlen]) hb
        simpa [filterFalse] using this
      · rw [show stripGroups (Tok.openT c :: ts) bs =
          Tok.openT c :: stripGroups ts (false :: bs) from by
            simp [stripGroups, hc]]
        rw [show balanced (Tok.openT c :: stripGroups ts (false :: bs))
          (filterFalse bs st) =
          balanced (stripGroups ts (false :: bs))
            (tagName c :: filterFalse bs st) from rfl]
        have := ih (false :: bs) (tagName c :: st) (by simp [hlen]) hb
        simpa [filterFalse] using this
    | closeT n =>
      cases st with
      | nil => simp [balanced] at hb
      | cons m st' =>
        rw [show balanced (Tok.closeT n :: ts) (m :: st') =
          (decide (n = m) && balanced ts st') from rfl, Bool.and_eq_true] at hb
        obtain ⟨hnm, hb⟩ := hb
        have hnm' : n = m := by simpa using hnm
        cases bs with
        | nil => simp at hlen
        | cons b bs' =>
          have hlen' : bs'.length = st'.length := by simpa using hlen
          cases b with
          | true =>
            rw [show stripGroups (Tok.closeT n :: ts) (true :: bs') =
              stripGroups ts bs' from rfl]
            have := ih bs' st' hlen' hb
            simpa [filterFalse] using this
          | false =>
            rw [show stripGroups (Tok.closeT n :: ts) (false :: bs') =
              Tok.closeT n :: stripGroups ts bs' from rfl]
            rw [show filterFalse (false :: bs') (m :: st') =
              m :: filterFalse bs' st' from rfl]
            rw [show balanced (Tok.closeT n :: stripGroups ts bs')
              (m :: filterFalse bs' st') =
              (decide (n = m) && balanced (stripGroups ts bs')
                (filterFalse bs' st')) from rfl, Bool.and_eq_true]
            exact ⟨by simpa using hnm', ih bs' st' hlen' hb⟩
    | selfT c =>
      rw [show balanced (Tok.selfT c :: ts) st = balanced ts st from rfl] at hb
      rw [show stripGroups (Tok.selfT c :: ts) bs =
        Tok.selfT c :: stripGroups ts bs from rfl]
      rw [show balanced (Tok.selfT c :: stripGroups ts bs)
        (filterFalse bs st) =
        balanced (stripGroups ts bs) (filterFalse bs st) from rfl]
      exact ih bs st hlen hb
    | chr b =>
      rw [show balanced (Tok.chr b :: ts) st = balanced ts st from rfl] at hb
      rw [show stripGroups (Tok.chr b :: ts) bs =
        Tok.chr b :: stripGroups ts bs from rfl]
      rw [show balanced (Tok.chr b :: stripGroups ts bs)
        (filterFalse bs st) =
        balanced (stripGroups ts bs) (filterFalse bs st) from rfl]
      exact ih bs st hlen hb

theorem svgRoot_stripGroups {ts : List Tok} (bs : List Bool)
    (h : svgRoot ts = true) : svgRoot (stripGroups ts bs) = true := by
  cases ts with
  | nil => simp [svgRoot] at h
  | cons t rest =>
    cases t with
    | openT c =>
      have hname : tagName c = [115, 118, 103] := by simpa [svgRoot] using h
      have hc : c ≠ [103] := by
        intro hc
        rw [hc] at hname
        exact absurd hname (by decide)
      rw [show stripGroups (Tok.openT c :: rest) bs =
        Tok.openT c :: stripGroups rest (false :: bs) from by
          simp [stripGroups, hc]]
      simpa [svgRoot] using hname
    | closeT n => simp [svgRoot] at h
    | selfT c =>
      have hname : tagName c = [115, 118, 103] := by simpa [svgRoot] using h
      rw [show stripGroups (Tok.selfT c :: rest) bs =
        Tok.selfT c :: stripGroups rest bs from rfl]
      simpa [svgRoot] using hname
    | chr b => simp [svgRoot] at h

theorem stripGroups_no_g : ∀ (ts : List Tok) (bs : List Bool),
    Tok.openT [103] ∉ stripGroups ts bs := by
  intro ts
  induction ts with
  | nil => intro bs; simp [stripGroups]
  | cons t ts ih =>
    intro bs
    cases t with
    | openT c =>
      by_cases hc : c = [103]
      · rw [show stripGroups (Tok.openT c :: ts) bs =
          stripGroups ts (true :: bs) from by simp [stripGroups, hc]]
        exact ih (true :: bs)
      · rw [show stripGroups (Tok.openT c :: ts) bs =
          Tok.openT c :: stripGroups ts (false :: bs) from by
            simp [stripGroups, hc]]
        intro hmem
        rcases List.mem_cons.mp hmem with heq | hmem'
        · exact hc (by injection heq.symm)
        · exact ih (false :: bs) hmem'
    | closeT n =>
      match bs with
      | true :: bs' =>
        rw [show stripGroups (Tok.closeT n :: ts) (true :: bs') =
          stripGroups ts bs' from rfl]
        exact ih bs'
      | false :: bs' =>
        rw [show stripGroups (Tok.closeT n :: ts) (false :: bs') =
          Tok.closeT n :: stripGroups ts bs' from rfl]
        intro hmem
        rcases List.mem_cons.mp hmem with heq | hmem'
        · cases heq
        · exact ih bs' hmem'
      | [] =>
        rw [show stripGroups (Tok.closeT n :: ts) [] =
          Tok.closeT n :: stripGroups ts [] from rfl]
        intro hmem
        rcases List.mem_cons.mp hmem with heq | hmem'
        · cases heq
        · exact ih [] hmem'
    | selfT c =>
      rw [show stripGroups (Tok.selfT c :: ts) bs =
        Tok.selfT c :: stripGroups ts bs from rfl]
      intro hmem
      rcases List.mem_cons.mp hmem with heq | hmem'
      · cases heq
      · exact ih bs hmem'
    | chr b =>
      rw [show stripGroups (Tok.chr b :: ts) bs =
        Tok.chr b :: stripGroups ts bs from rfl]
      intro hmem
      rcases List.mem_cons.mp hmem with heq | hmem'
      · cases heq
      · exact ih bs hmem'

theorem stripGroups_id : ∀ (ts : List Tok) (bs : List Bool),
    Tok.openT [103] ∉ ts → (∀ b ∈ bs, b = false) →
    stripGroups ts bs = ts := by
  intro ts
  induction ts with
  | nil => intro bs _ _; rfl
  | cons t ts ih =>
    intro bs hg hbs
    have hg' : Tok.openT [103] ∉ ts := fun h => hg (List.mem_cons_of_mem _ h)
    cases t with
    | openT c =>
      have hc : c ≠ [103] := by
        intro hc
        exact hg (by rw [hc]; exact List.mem_cons_self _ _)
      rw [show stripGroups (Tok.openT c :: ts) bs =
        Tok.openT c :: stripGroups ts (false :: bs) from by
          simp [stripGroups, hc]]
      rw [ih (false :: bs) hg' ?hall]
      case hall =>
        intro b hb
        rcases List.mem_cons.mp hb with h | h
        · exact h
        · exact hbs b h
    | closeT n =>
      cases bs with
      | nil =>
        rw [show stripGroups (Tok.closeT n :: ts) [] =
          Tok.closeT n :: stripGroups ts [] from rfl]
        rw [ih [] hg' (by intro b hb; cases hb)]
      | cons b bs' =>
        have hb : b = false := hbs b (List.mem_cons_self _ _)
        rw [hb]
        rw [show stripGroups (Tok.closeT n :: ts) (false :: bs') =
          Tok.closeT n :: stripGroups ts bs' from rfl]
        rw [ih bs' hg' (fun x hx => hbs x (List.mem_cons_of_mem _ hx))]
    | selfT c =>
      rw [show stripGroups (Tok.selfT c :: ts) bs =
        Tok.selfT c :: stripGroups ts bs from rfl]
      rw [ih bs hg' hbs]
    | chr b =>
      rw [show stripGroups (Tok.chr b :: ts) bs =
        Tok.chr b :: stripGroups ts bs from rfl]
      rw [ih bs hg' hbs]

theorem serialize_ne_nil_of_svgRoot {ts : List Tok}
    (h : svgRoot ts = true) : serialize ts ≠ [] := by
  cases ts with
  | nil => simp [svgRoot] at h
  | cons t rest =>
    cases t with
    | openT c => simp [serialize, serTok]
    | closeT n => simp [svgRoot] at h
    | selfT c => simp [serialize, serTok]
    | chr b => simp [svgRoot] at h

theorem optimize_eq_success {input : List Byte} {ts : List Tok}
    (h : parseDoc input = some ts) :
    vexy_svgo_optimize_default input =
      { error_code := 0
        data := some (serialize (stripGroups ts []))
        data_length := (serialize (stripGroups ts [])).length
        original_size := input.length
        optimized_size := (serialize (stripGroups ts [])).length
        error_message := none } := by
  rw [vexy_svgo_optimize_default, h]

theorem optimize_eq_failure {input : List Byte}
    (h : parseDoc input = none) :
    vexy_svgo_optimize_default input =
      { error_code := 1
        data := none
        data_length := 0
        original_size := input.length
        optimized_size := 0
        error_message := some invalidInputMsg } := by
  rw [vexy_svgo_optimize_default, h]

theorem parseDoc_optimized {input : List Byte} {ts : List Tok}
    (h : parseDoc input = some ts) :
    parseDoc (serialize (stripGroups ts [])) = some (stripGroups ts []) := by
  obtain ⟨htok, hbal, hroot⟩ := parseDoc_props h
  have hwf : wfToks ts = true := tokenize_wf htok
  have hwf' : wfToks (stripGroups ts []) = true := wfToks_stripGroups [] hwf
  have htok' : tokenize (serialize (stripGroups ts [])) =
      some (stripGroups ts []) := tokenize_serialize hwf'
  have hbal' : balanced (stripGroups ts []) [] = true := by
    have := balanced_stripGroups ts [] [] rfl hbal
    simpa [filterFalse] using this
  have hroot' : svgRoot (stripGroups ts []) = true :=
    svgRoot_stripGroups [] hroot
  rw [parseDoc, htok']
  show (if (balanced (stripGroups ts []) [] && svgRoot (stripGroups ts []))
      = true then some (stripGroups ts []) else none) =
    some (stripGroups ts [])
  rw [hbal', hroot']
  rfl

theorem cCharP_read_of_no_nul : ∀ {bs : List Byte}, (0 : Byte) ∉ bs →
    cCharP_read bs = bs := by
  intro bs
  induction bs with
  | nil => intro _; rfl
  | cons b bs ih =>
    intro h
    have hb : b ≠ 0 := fun hb => h (by rw [hb]; exact List.mem_cons_self _ _)
    have hbs : (0 : Byte) ∉ bs := fun h' => h (List.mem_cons_of_mem _ h')
    simp only [cCharP_read, List.takeWhile]
    rw [show (decide (b ≠ 0)) = true by simpa using hb]
    rw [show bs.takeWhile (fun x => decide (x ≠ 0)) = bs from ih hbs]

/-! ### Claim theorems -/

/-- C1: for every valid input byte sequence, `vexy_svgo_optimize_default`
returns a record with `error_code = 0`, `data_length = optimized_size`,
and `original_size` equal to the exact byte length of the input. -/
theorem optimize_valid_input_contract (input : List Byte)
    (h : isValidInput input = true) :
    (vexy_svgo_optimize_default input).error_code = 0 ∧
    (vexy_svgo_optimize_default input).data_length =
      (vexy_svgo_optimize_default input).optimized_size ∧
    (vexy_svgo_optimize_default input).original_size = input.length := by
  rw [isValidInput, Option.isSome_iff_exists] at h
  obtain ⟨ts, hts⟩ := h
  rw [optimize_eq_success hts]
  exact ⟨rfl, rfl, rfl⟩

/-- Witness for C1: the 50-byte example document is a valid input and the
contract evaluates as stated on it. -/
theorem optimize_valid_input_contract_witness :
    isValidInput svgExampleBytes = true ∧
    ((vexy_svgo_optimize_default svgExampleBytes).error_code = 0 ∧
     (vexy_svgo_optimize_default svgExampleBytes).data_length =
       (vexy_svgo_optimize_default svgExampleBytes).optimized_size ∧
     (vexy_svgo_optimize_default svgExampleBytes).original_size =
       svgExampleBytes.length) :=
  ⟨by decide, optimize_valid_input_contract svgExampleBytes (by decide)⟩

/-- C2: for every malformed input (the empty byte sequence and unterminated
tags included), `vexy_svgo_optimize_default` returns a nonzero
`error_code`, a null `data`, and a non-empty error message that contains
no NUL byte, so its null-terminated rendering carries all of it. -/
theorem optimize_malformed_input_contract (input : List Byte)
    (h : isValidInput input = false) :
    (vexy_svgo_optimize_default input).error_code ≠ 0 ∧
    (vexy_svgo_optimize_default input).data = none ∧
    ∃ m, (vexy_svgo_optimize_default input).error_message = some m ∧
      m ≠ [] ∧ (0 : Byte) ∉ m := by
  have hnone : parseDoc input = none := by
    cases hp : parseDoc input with
    | none => rfl
    | some ts => simp [isValidInput, hp] at h
  rw [optimize_eq_failure hnone]
  exact ⟨by norm_num, rfl, invalidInputMsg, rfl, by decide, by decide⟩

/-- Witness for C2: the empty byte sequence and the unterminated tag
`<svg` are both malformed, and the contract evaluates as stated on them. -/
theorem optimize_malformed_input_contract_witness :
    (isValidInput [] = false ∧
     ((vexy_svgo_optimize_default []).error_code ≠ 0 ∧
      (vexy_svgo_optimize_default []).data = none ∧
      ∃ m, (vexy_svgo_optimize_default []).error_message = some m ∧
        m ≠ [] ∧ (0 : Byte) ∉ m)) ∧
    (isValidInput [60, 115, 118, 103] = false ∧
     ((vexy_svgo_optimize_default [60, 115, 118, 103]).error_code ≠ 0 ∧
      (vexy_svgo_optimize_default [60, 115, 118, 103]).data = none ∧
      ∃ m, (vexy_svgo_optimize_default [60, 115, 118, 103]).error_message
          = some m ∧ m ≠ [] ∧ (0 : Byte) ∉ m)) :=
  ⟨⟨by decide, optimize_malformed_input_contract [] (by decide)⟩,
   ⟨by decide, optimize_malformed_input_contract [60, 115, 118, 103]
      (by decide)⟩⟩

/-- C3: every record produced by `vexy_svgo_optimize_default` populates
exactly one of the two payload fields non-empty, gated by `error_code`:
non-empty `data` and null `error_message` on success, non-empty
`error_message` and null `data` on failure. -/
theorem optimize_result_exclusivity (input : List Byte) :
    ((vexy_svgo_optimize_default input).error_code = 0 →
      (∃ d, (vexy_svgo_optimize_default input).data = some d ∧ d ≠ []) ∧
      (vexy_svgo_optimize_default input).error_message = none) ∧
    ((vexy_svgo_optimize_default input).error_code ≠ 0 →
      (∃ m, (vexy_svgo_optimize_default input).error_message = some m ∧
        m ≠ []) ∧
      (vexy_svgo_optimize_default input).data = none) := by
  cases hp : parseDoc input with
  | none =>
    rw [optimize_eq_failure hp]
    exact ⟨fun h0 => absurd h0 (by norm_num),
           fun _ => ⟨⟨invalidInputMsg, rfl, by decide⟩, rfl⟩⟩
  | some ts =>
    have hroot : svgRoot ts = true := (parseDoc_props hp).2.2
    have hne : serialize (stripGroups ts []) ≠ [] :=
      serialize_ne_nil_of_svgRoot (svgRoot_stripGroups [] hroot)
    rw [optimize_eq_success hp]
    exact ⟨fun _ => ⟨⟨serialize (stripGroups ts []), rfl, hne⟩, rfl⟩,
           fun h => absurd rfl h⟩

/-- Witness for C3: the exclusivity split evaluated on the example
document. -/
theorem optimize_result_exclusivity_witness :
    ((vexy_svgo_optimize_default svgExampleBytes).error_code = 0 →
      (∃ d, (vexy_svgo_optimize_default svgExampleBytes).data = some d ∧
        d ≠ []) ∧
      (vexy_svgo_optimize_default svgExampleBytes).error_message = none) ∧
    ((vexy_svgo_optimize_default svgExampleBytes).error_code ≠ 0 →
      (∃ m, (vexy_svgo_optimize_default svgExampleBytes).error_message =
        some m ∧ m ≠ []) ∧
      (vexy_svgo_optimize_default svgExampleBytes).data = none) :=
  optimize_result_exclusivity svgExampleBytes

/-- C4 counterexample: the script invokes a native operation named
`vexy_svgo_optimize_default`, which is neither of the names
`optimize_default` and `free_result` that the claim says are the only two
callable operation names. -/
theorem ffi_symbol_names_counterexample :
    "vexy_svgo_optimize_default" ∈ libAttrRefsScript mainScript ∧
    "vexy_svgo_optimize_default" ≠ "optimize_default" ∧
    "vexy_svgo_optimize_default" ≠ "free_result" := by
  refine ⟨by decide, by decide, by decide⟩

/-- C4 amended: the only two native operations the host binding touches
are named exactly `vexy_svgo_optimize_default` and
`vexy_svgo_free_result`; no other symbol of the library is referenced
anywhere in the script. -/
theorem ffi_symbols_used_exactly :
    (libAttrRefsScript mainScript).dedup =
      ["vexy_svgo_optimize_default", "vexy_svgo_free_result"] := by
  decide

/-- C5: the boundary record has exactly six fields, in the fixed order
`error_code`, `data`, `data_length`, `original_size`, `optimized_size`,
`error_message`, with `error_code` a 32-bit signed integer, the two
payload fields pointers, and the three size fields platform-width
non-pointer unsigned integers; this is the `_fields_` list the script
declares on line 11. -/
theorem vexyResult_layout (ptrBits : Nat) :
    vexyResultFields.map Prod.fst =
      ["error_code", "data", "data_length", "original_size",
       "optimized_size", "error_message"] ∧
    vexyResultFields.length = 6 ∧
    vexyResultFields.map (fun f => (f.2).bitWidth ptrBits) =
      [32, ptrBits, ptrBits, ptrBits, ptrBits, ptrBits] ∧
    vexyResultFields.map (fun f => (f.2).isSigned) =
      [true, false, false, false, false, false] ∧
    vexyResultFields.map (fun f => (f.2).isPointer) =
      [false, true, false, false, false, true] ∧
    PyStmt.classDef 11 "VexyResult" vexyResultFields ∈ mainScript :=
  ⟨rfl, rfl, rfl, rfl, rfl, by decide⟩

/-- Witness for C5: the layout facts at the 64-bit pointer width. -/
theorem vexyResult_layout_witness :
    vexyResultFields.map Prod.fst =
      ["error_code", "data", "data_length", "original_size",
       "optimized_size", "error_message"] ∧
    vexyResultFields.length = 6 ∧
    vexyResultFields.map (fun f => (f.2).bitWidth 64) =
      [32, 64, 64, 64, 64, 64] ∧
    vexyResultFields.map (fun f => (f.2).isSigned) =
      [true, false, false, false, false, false] ∧
    vexyResultFields.map (fun f => (f.2).isPointer) =
      [false, true, false, false, false, true] ∧
    PyStmt.classDef 11 "VexyResult" vexyResultFields ∈ mainScript :=
  vexyResult_layout 64

/-- C6: for every input the producing operation returns one fully
populated record: `original_size` is always set, and the pointer field
the caller reads after branching on `error_code` is always initialized —
`data` present on success, `error_message` present on failure. -/
theorem optimize_fully_populated (input : List Byte) :
    (vexy_svgo_optimize_default input).original_size = input.length ∧
    ((vexy_svgo_optimize_default input).error_code = 0 →
      (vexy_svgo_optimize_default input).data.isSome = true ∧
      (vexy_svgo_optimize_default input).error_message = none) ∧
    ((vexy_svgo_optimize_default input).error_code ≠ 0 →
      (vexy_svgo_optimize_default input).error_message.isSome = true ∧
      (vexy_svgo_optimize_default input).data = none) := by
  cases hp : parseDoc input with
  | none =>
    rw [optimize_eq_failure hp]
    exact ⟨rfl, fun h0 => absurd h0 (by norm_num), fun _ => ⟨rfl, rfl⟩⟩
  | some ts =>
    rw [optimize_eq_success hp]
    exact ⟨rfl, fun _ => ⟨rfl, rfl⟩, fun h => absurd rfl h⟩

/-- Witness for C6: full population evaluated on the example document. -/
theorem optimize_fully_populated_witness :
    (vexy_svgo_optimize_default svgExampleBytes).original_size =
      svgExampleBytes.length ∧
    ((vexy_svgo_optimize_default svgExampleBytes).error_code = 0 →
      (vexy_svgo_optimize_default svgExampleBytes).data.isSome = true ∧
      (vexy_svgo_optimize_default svgExampleBytes).error_message = none) ∧
    ((vexy_svgo_optimize_default svgExampleBytes).error_code ≠ 0 →
      (vexy_svgo_optimize_default svgExampleBytes).error_message.isSome
        = true ∧
      (vexy_svgo_optimize_default svgExampleBytes).data = none) :=
  optimize_fully_populated svgExampleBytes

/-- C7 counterexample: on a valid document carrying an embedded NUL byte
the example caller's decode (a ctypes `c_char_p` read, main.py lines 13
and 24) does not return the first `data_length` bytes of the payload: the
bytes from the NUL on are lost, so the claim that the caller decodes
exactly `data_length` bytes is false. -/
theorem caller_decode_embedded_nul_counterexample :
    (vexy_svgo_optimize_default nulPayloadInput).error_code = 0 ∧
    callerDecode (vexy_svgo_optimize_default nulPayloadInput) ≠
      ((vexy_svgo_optimize_default nulPayloadInput).data.getD []).take
        (vexy_svgo_optimize_default nulPayloadInput).data_length := by
  decide

/-- C7 amended: the example caller decodes `data` as a null-terminated
string through `c_char_p`, ignoring `data_length`; the decoded payload
coincides with the first `data_length` bytes exactly when the payload
contains no embedded NUL byte. -/
theorem caller_decode_no_nul (input : List Byte)
    (h0 : (vexy_svgo_optimize_default input).error_code = 0)
    (hn : (0 : Byte) ∉ (vexy_svgo_optimize_default input).data.getD []) :
    callerDecode (vexy_svgo_optimize_default input) =
      ((vexy_svgo_optimize_default input).data.getD []).take
        (vexy_svgo_optimize_default input).data_length := by
  cases hp : parseDoc input with
  | none =>
    rw [optimize_eq_failure hp] at h0
    exact absurd h0 (by norm_num)
  | some ts =>
    rw [optimize_eq_success hp] at hn ⊢
    have hn' : (0 : Byte) ∉ serialize (stripGroups ts []) := hn
    show cCharP_read (serialize (stripGroups ts [])) =
      (serialize (stripGroups ts [])).take
        (serialize (stripGroups ts [])).length
    rw [List.take_length, cCharP_read_of_no_nul hn']

/-- Witness for C7: the example document's payload has no NUL byte and the
two decodes agree on it. -/
theorem caller_decode_no_nul_witness :
    (vexy_svgo_optimize_default svgExampleBytes).error_code = 0 ∧
    (0 : Byte) ∉ (vexy_svgo_optimize_default svgExampleBytes).data.getD []
      ∧
    callerDecode (vexy_svgo_optimize_default svgExampleBytes) =
      ((vexy_svgo_optimize_default svgExampleBytes).data.getD []).take
        (vexy_svgo_optimize_default svgExampleBytes).data_length :=
  ⟨by decide, by decide,
   caller_decode_no_nul svgExampleBytes (by decide) (by decide)⟩

/-- C8: feeding the `data` output of a successful
`vexy_svgo_optimize_default` call back in succeeds, and the second call's
`optimized_size` is at most the first call's (here in fact equal: the
pass is idempotent). -/
theorem optimize_roundtrip_shrink (input d : List Byte)
    (h0 : (vexy_svgo_optimize_default input).error_code = 0)
    (hd : (vexy_svgo_optimize_default input).data = some d) :
    (vexy_svgo_optimize_default d).error_code = 0 ∧
    (vexy_svgo_optimize_default d).optimized_size ≤
      (vexy_svgo_optimize_default input).optimized_size := by
  cases hp : parseDoc input with
  | none =>
    rw [optimize_eq_failure hp] at h0
    exact absurd h0 (by norm_num)
  | some ts =>
    rw [optimize_eq_success hp] at hd
    have hd' : d = serialize (stripGroups ts []) :=
      (Option.some.injEq _ _ ▸ hd :
        serialize (stripGroups ts []) = d).symm
    have hp2 : parseDoc d = some (stripGroups ts []) := by
      rw [hd']
      exact parseDoc_optimized hp
    have hid : stripGroups (stripGroups ts []) [] = stripGroups ts [] :=
      stripGroups_id (stripGroups ts []) []
        (stripGroups_no_g ts []) (by intro b hb; cases hb)
    rw [optimize_eq_success hp, optimize_eq_success hp2, hid, hd']
    exact ⟨rfl, Nat.le_refl _⟩

/-- Witness for C8: the round trip evaluated on the example document and
its optimized output. -/
theorem optimize_roundtrip_shrink_witness :
    (vexy_svgo_optimize_default svgExampleBytes).error_code = 0 ∧
    (vexy_svgo_optimize_default svgExampleBytes).data =
      some svgOptimizedBytes ∧
    ((vexy_svgo_optimize_default svgOptimizedBytes).error_code = 0 ∧
     (vexy_svgo_optimize_default svgOptimizedBytes).optimized_size ≤
       (vexy_svgo_optimize_default svgExampleBytes).optimized_size) :=
  ⟨by decide, by decide,
   optimize_roundtrip_shrink svgExampleBytes svgOptimizedBytes
     (by decide) (by decide)⟩

/-- C9 counterexample: the byte length of the concrete input
`<svg><g><rect width="100" height="100"/></g></svg>` of main.py line 19 is
50, not 54, and accordingly `original_size` is not 54 either. -/
theorem svg_example_not_54_bytes :
    svgExampleBytes.length ≠ 54 ∧
    (vexy_svgo_optimize_default svgExampleBytes).original_size ≠ 54 := by
  decide

/-- C9 amended: the concrete input's byte length is 50; optimizing it
succeeds with `original_size = 50`, the redundant group element removed
from the output, and `optimized_size < original_size`. -/
theorem svg_example_concrete :
    svgExampleBytes.length = 50 ∧
    (vexy_svgo_optimize_default svgExampleBytes).error_code = 0 ∧
    (vexy_svgo_optimize_default svgExampleBytes).original_size = 50 ∧
    (vexy_svgo_optimize_default svgExampleBytes).data =
      some svgOptimizedBytes ∧
    (vexy_svgo_optimize_default svgExampleBytes).optimized_size <
      (vexy_svgo_optimize_default svgExampleBytes).original_size := by
  decide

/-- C10: for every branch oracle, executing the example script raises a
`NameError` on `VexyResult` at line 8 — the assignment of
`lib.vexy_svgo_optimize_default.restype` — with the FFI-call trace still
empty, so no FFI function is ever invoked; the class definition that
would bind the name only occurs later, at line 11. -/
theorem script_raises_nameerror_line8 (oracle : Nat → Bool) :
    runScript oracle mainScript = RunState.raisedName 8 "VexyResult" [] ∧
    PyStmt.classDef 11 "VexyResult" vexyResultFields ∈ mainScript :=
  ⟨rfl, by decide⟩

/-- Witness for C10: the run evaluated under the constant-true oracle. -/
theorem script_raises_nameerror_line8_witness :
    runScript (fun _ => true) mainScript =
      RunState.raisedName 8 "VexyResult" [] ∧
    PyStmt.classDef 11 "VexyResult" vexyResultFields ∈ mainScript :=
  script_raises_nameerror_line8 (fun _ => true)

end VexySvgo
